import Mathlib

/-!
Verification of the core game logic of the Arduino OLED "Flappy Bird" clone
(`makerblog_ardu_bird_de.ino`).  The embedding below translates the game's
global constants and the functions `saveHighscores`, `findFurthestPipe`,
`movePipes`, `checkCollision`, the PLAYING-state physics step and the
HIGHSCORE case of `loop` into pure Lean functions.

Modelling notes:
* All machine integers (`int`, `long`) are modelled as `ℤ`.  Every quantity
  involved stays far below the 16-bit `int` range on the inputs the theorems
  evaluate, and no claim concerns overflow behaviour.
* The C variable `velocity` is declared `float`, but every value it can ever
  hold is a small integer (it is only ever set to `JUMP_STRENGTH = -25`,
  incremented by `GRAVITY = 5`, and clamped to `[-50, 50]`), and small
  integers are exact in IEEE single precision; `birdY += velocity` therefore
  coincides with exact integer arithmetic, so `ℤ` is a faithful model.
* The Arduino random source `random(lo, hi)` (uniform integer in `[lo, hi)`)
  is modelled as an oracle `rnd : ℤ → ℤ → ℕ → ℤ` taking the two bounds and a
  call counter; theorems that depend on the draw being in range take the
  range condition as a hypothesis.
* Timestamps (`millis()`, `unsigned long`) are modelled as `ℕ`; the
  subtraction `millis() - gameOverTime` matches `ℕ` subtraction because the
  clock is monotone and the recorded timestamp is in the past.
-/

/-- `const int SCREEN_WIDTH = 128`. -/
def SCREEN_WIDTH : ℤ := 128

/-- `const int SCREEN_HEIGHT = 64`. -/
def SCREEN_HEIGHT : ℤ := 64

/-- `const int SCALE_FACTOR = 10`. -/
def SCALE_FACTOR : ℤ := 10

/-- `const int GRAVITY = 5`. -/
def GRAVITY : ℤ := 5

/-- `const int JUMP_STRENGTH = -25`. -/
def JUMP_STRENGTH : ℤ := -25

/-- `const int PIPE_WIDTH = 15 * SCALE_FACTOR`. -/
def PIPE_WIDTH : ℤ := 15 * SCALE_FACTOR

/-- `const int PIPE_GAP = 30 * SCALE_FACTOR`. -/
def PIPE_GAP : ℤ := 30 * SCALE_FACTOR

/-- `const int PIPE_SPEED = 10`. -/
def PIPE_SPEED : ℤ := 10

/-- `const int PIPE_SPACING = 65 * SCALE_FACTOR`. -/
def PIPE_SPACING : ℤ := 65 * SCALE_FACTOR

/-- `const int MAX_PIPES = 3` (number of slots of the fixed pipe array). -/
def MAX_PIPES : ℕ := 3

/-- Arduino's `constrain(amt, low, high)` macro:
`((amt)<(low)?(low):((amt)>(high)?(high):(amt)))`. -/
def constrain (amt low high : ℤ) : ℤ :=
  if amt < low then low else if amt > high then high else amt

/-- `struct Pipe { int x; int height; }`. -/
structure Pipe where
  x : ℤ
  height : ℤ
deriving DecidableEq, Repr

/-- `void saveHighscores(int newScore)`, acting on the global
`long highscores[5]` and `int newHighscoreIndex`.  The function scans the
array from the top, and at the first index `i` with `newScore > highscores[i]`
shifts entries `i..3` down one slot (discarding the old last entry), writes
`newScore` at `i`, records `i` in `newHighscoreIndex` and stops; if no index
qualifies the array is untouched and `newHighscoreIndex` stays `-1`.
Returned value: the updated list together with the new `newHighscoreIndex`. -/
def saveHighscores (newScore : ℤ) : List ℤ → List ℤ × ℤ
  | [] => ([], -1)
  | h :: t =>
    if newScore > h then
      (newScore :: (h :: t).dropLast, 0)
    else
      let r := saveHighscores newScore t
      (h :: r.1, if r.2 = -1 then -1 else r.2 + 1)

/-- The scan predicate of `saveHighscores`: slot value `x` qualifies when
`newScore > x`. -/
def beats (newScore x : ℤ) : Bool := decide (x < newScore)

/-- Unfolding `saveHighscores` at a qualifying head slot. -/
lemma saveHighscores_cons_pos (newScore h : ℤ) (t : List ℤ) (hb : newScore > h) :
    saveHighscores newScore (h :: t) = (newScore :: (h :: t).dropLast, 0) := by
  simp [saveHighscores, hb]

/-- Unfolding `saveHighscores` at a non-qualifying head slot. -/
lemma saveHighscores_cons_neg (newScore h : ℤ) (t : List ℤ) (hb : ¬ newScore > h) :
    saveHighscores newScore (h :: t) =
      ((h :: (saveHighscores newScore t).1),
        if (saveHighscores newScore t).2 = -1 then -1
        else (saveHighscores newScore t).2 + 1) := by
  simp [saveHighscores, hb]

/-- `saveHighscores` realises the first-qualifying-slot insertion: writing
`fi` for the index of the first entry smaller than `newScore` (`findIdx`),
if `fi` is in range the result is `take fi ++ newScore :: dropLast (drop fi)`
with recorded index `fi`, and otherwise the list is unchanged with recorded
index `-1`. -/
lemma saveHighscores_findIdx (newScore : ℤ) (hs : List ℤ) :
    (hs.findIdx (beats newScore) < hs.length →
      saveHighscores newScore hs =
        (hs.take (hs.findIdx (beats newScore)) ++
          newScore :: (hs.drop (hs.findIdx (beats newScore))).dropLast,
         (hs.findIdx (beats newScore) : ℤ))) ∧
    (hs.length ≤ hs.findIdx (beats newScore) →
      saveHighscores newScore hs = (hs, -1)) := by
  induction hs with
  | nil =>
    constructor
    · intro h; simp at h
    · intro _; rfl
  | cons h t ih =>
    by_cases hb : h < newScore
    · have hfi : (h :: t).findIdx (beats newScore) = 0 := by
        simp [List.findIdx_cons, beats, hb]
      constructor
      · intro _
        rw [hfi]
        simp [saveHighscores_cons_pos newScore h t hb]
      · intro hle
        rw [hfi] at hle
        simp at hle
    · have hfi : (h :: t).findIdx (beats newScore) = t.findIdx (beats newScore) + 1 := by
        simp [List.findIdx_cons, beats, hb]
      have hnotgt : ¬ newScore > h := hb
      constructor
      · intro hlt
        rw [hfi] at hlt ⊢
        have hlt' : t.findIdx (beats newScore) < t.length := by
          simp only [List.length_cons] at hlt
          omega
        have hr := ih.1 hlt'
        have hne : ((t.findIdx (beats newScore) : ℤ)) ≠ -1 := by omega
        rw [saveHighscores_cons_neg newScore h t hnotgt, hr]
        simp only [if_neg hne, List.take_succ_cons, List.drop_succ_cons, Prod.mk.injEq]
        constructor
        · rfl
        · push_cast
          ring
      · intro hle
        rw [hfi] at hle
        have hle' : t.length ≤ t.findIdx (beats newScore) := by
          simp only [List.length_cons] at hle
          omega
        have hr := ih.2 hle'
        rw [saveHighscores_cons_neg newScore h t hnotgt, hr]
        simp

/-- The first qualifying slot exists exactly when some entry is beaten. -/
lemma findIdx_beats_lt_iff (newScore : ℤ) (hs : List ℤ) :
    hs.findIdx (beats newScore) < hs.length ↔ ∃ x ∈ hs, x < newScore := by
  rw [List.findIdx_lt_length]
  simp [beats]

/-- `saveHighscores` never changes the number of slots. -/
lemma saveHighscores_length (newScore : ℤ) (hs : List ℤ) :
    (saveHighscores newScore hs).1.length = hs.length := by
  induction hs with
  | nil => rfl
  | cons h t ih =>
    by_cases hb : newScore > h
    · rw [saveHighscores_cons_pos newScore h t hb]
      simp [List.length_dropLast]
    · rw [saveHighscores_cons_neg newScore h t hb]
      simp [ih]

/-- The head of the updated list is the old head or the submitted score. -/
lemma saveHighscores_head? (newScore : ℤ) (hs : List ℤ) :
    (saveHighscores newScore hs).1.head? = hs.head? ∨
      (saveHighscores newScore hs).1.head? = some newScore := by
  cases hs with
  | nil => left; rfl
  | cons h t =>
    by_cases hb : newScore > h
    · right
      rw [saveHighscores_cons_pos newScore h t hb]
      rfl
    · left
      rw [saveHighscores_cons_neg newScore h t hb]
      rfl

/-- `saveHighscores` preserves the non-increasing (`≥`) chain order. -/
lemma saveHighscores_chain_ge (newScore : ℤ) (hs : List ℤ)
    (hsort : hs.Chain' (· ≥ ·)) :
    (saveHighscores newScore hs).1.Chain' (· ≥ ·) := by
  induction hs with
  | nil => exact List.chain'_nil
  | cons h t ih =>
    rw [List.chain'_cons'] at hsort
    by_cases hb : newScore > h
    · rw [saveHighscores_cons_pos newScore h t hb]
      rw [List.chain'_cons']
      constructor
      · intro y hy
        cases t with
        | nil => simp at hy
        | cons a u =>
          have hyh : h = y := by
            simpa [List.dropLast] using hy
          rw [← hyh]
          exact le_of_lt hb
      · exact List.Chain'.sublist (List.chain'_cons'.mpr hsort) (List.dropLast_sublist _)
    · rw [saveHighscores_cons_neg newScore h t hb]
      rw [List.chain'_cons']
      refine ⟨?_, ih hsort.2⟩
      intro y hy
      rcases saveHighscores_head? newScore t with hh | hh
      · rw [hh] at hy
        exact hsort.1 y hy
      · rw [hh] at hy
        simp only [Option.mem_def, Option.some.injEq] at hy
        subst hy
        exact not_lt.mp hb

/-- `saveHighscores` preserves non-negativity of all entries. -/
lemma saveHighscores_nonneg (newScore : ℤ) (hs : List ℤ)
    (hpos : ∀ x ∈ hs, 0 ≤ x) :
    ∀ x ∈ (saveHighscores newScore hs).1, 0 ≤ x := by
  induction hs with
  | nil => intro x hx; simp [saveHighscores] at hx
  | cons h t ih =>
    by_cases hb : newScore > h
    · rw [saveHighscores_cons_pos newScore h t hb]
      intro x hx
      rcases List.mem_cons.mp hx with rfl | hx
      · have h0 : (0 : ℤ) ≤ h := hpos h (List.mem_cons_self h t)
        exact le_of_lt (lt_of_le_of_lt h0 hb)
      · exact hpos x (List.dropLast_sublist (h :: t) |>.mem hx)
    · rw [saveHighscores_cons_neg newScore h t hb]
      intro x hx
      rcases List.mem_cons.mp hx with rfl | hx
      · exact hpos x (List.mem_cons_self x t)
      · exact ih (fun y hy => hpos y (List.mem_cons_of_mem h hy)) x hx

/-- On a descending 5-slot list the last slot is minimal. -/
lemma chain_ge_five_min (hs : List ℤ) (h5 : hs.length = 5)
    (hsort : hs.Chain' (· ≥ ·)) : ∀ x ∈ hs, hs.getD 4 0 ≤ x := by
  rcases hs with _ | ⟨a, _ | ⟨b, _ | ⟨c, _ | ⟨d, _ | ⟨e, _ | ⟨f, t⟩⟩⟩⟩⟩⟩ <;>
    simp only [List.length_cons, List.length_nil] at h5 <;> try omega
  simp only [List.chain'_cons, List.chain'_singleton, and_true, ge_iff_le] at hsort
  intro x hx
  simp only [List.mem_cons, List.not_mem_nil, or_false] at hx
  simp only [List.getD_cons_succ, List.getD_cons_zero]
  rcases hx with rfl | rfl | rfl | rfl | rfl <;> omega

/-- Claim C1: on a 5-entry non-increasing highscore list, `saveHighscores s`
inserts `s` exactly when `s` beats at least one entry; it does so at the
first (topmost) slot whose value is less than `s`, shifting that slot and
everything below down one place (discarding the last entry) and recording
that slot's index, and otherwise (in particular whenever `s` is at most the
minimum entry, slot 4) it leaves the list unchanged with index `-1`. -/
theorem submit_insertion_spec (hs : List ℤ) (s : ℤ)
    (h5 : hs.length = 5) (hsort : hs.Chain' (· ≥ ·)) :
    ((∃ x ∈ hs, x < s) ↔ hs.findIdx (beats s) < 5) ∧
    (hs.findIdx (beats s) < 5 →
      saveHighscores s hs =
        (hs.take (hs.findIdx (beats s)) ++
          s :: (hs.drop (hs.findIdx (beats s))).dropLast,
         (hs.findIdx (beats s) : ℤ))) ∧
    ((∀ x ∈ hs, s ≤ x) → saveHighscores s hs = (hs, -1)) ∧
    (s ≤ hs.getD 4 0 → saveHighscores s hs = (hs, -1)) := by
  have hiff := findIdx_beats_lt_iff s hs
  rw [h5] at hiff
  have hspec := saveHighscores_findIdx s hs
  rw [h5] at hspec
  have hnoop : (∀ x ∈ hs, s ≤ x) → saveHighscores s hs = (hs, -1) := by
    intro hall
    apply hspec.2
    by_contra hcon
    have hlt : hs.findIdx (beats s) < 5 := by omega
    obtain ⟨x, hxmem, hxlt⟩ := hiff.mp hlt
    exact absurd (hall x hxmem) (not_le.mpr hxlt)
  refine ⟨hiff.symm, hspec.1, hnoop, ?_⟩
  intro hle
  exact hnoop fun x hx => le_trans hle (chain_ge_five_min hs h5 hsort x hx)

/-- Claim C1 witness: the spec's scenario `[50,40,30,20,10]`, `submit 35`
gives `[50,40,35,30,20]` with insertion index 2 (10 discarded), and a
submission at most the minimum (10) is a no-op with index `-1`. -/
theorem submit_insertion_spec_witness :
    saveHighscores 35 [50, 40, 30, 20, 10] = ([50, 40, 35, 30, 20], 2) ∧
    saveHighscores 10 [50, 40, 30, 20, 10] = ([50, 40, 30, 20, 10], -1) := by
  have hsort : ([50, 40, 30, 20, 10] : List ℤ).Chain' (· ≥ ·) := by
    norm_num [List.chain'_cons, List.chain'_singleton]
  have h35 := submit_insertion_spec [50, 40, 30, 20, 10] 35 (by decide) hsort
  have h10 := submit_insertion_spec [50, 40, 30, 20, 10] 10 (by decide) hsort
  constructor
  · rw [h35.2.1 (by decide)]
    decide
  · exact h10.2.2.2 (by decide)

/-- Claim C6 counterexample: starting from the reachable all-zero initial
list, submitting score 5 in two consecutive runs produces `[5,5,0,0,0]`,
which is not sorted strictly descending, refuting "remains sorted strictly
descending after every submit call". -/
theorem submit_strict_descending_cex :
    (saveHighscores 5 (saveHighscores 5 [0, 0, 0, 0, 0]).1).1 = [5, 5, 0, 0, 0] ∧
    ¬ (saveHighscores 5 (saveHighscores 5 [0, 0, 0, 0, 0]).1).1.Chain' (· > ·) := by
  have he : (saveHighscores 5 (saveHighscores 5 [0, 0, 0, 0, 0]).1).1 = [5, 5, 0, 0, 0] := by
    decide
  refine ⟨he, ?_⟩
  rw [he]
  norm_num [List.chain'_cons]

/-- Claim C6 (amended): after every `saveHighscores` call on a 5-entry
non-increasingly sorted list, the list is still sorted non-increasing
(equal neighbours allowed) and its length is still exactly 5. -/
theorem submit_sorted_nonincreasing (hs : List ℤ) (s : ℤ)
    (h5 : hs.length = 5) (hsort : hs.Chain' (· ≥ ·)) :
    (saveHighscores s hs).1.Chain' (· ≥ ·) ∧
    (saveHighscores s hs).1.length = 5 := by
  refine ⟨saveHighscores_chain_ge s hs hsort, ?_⟩
  rw [saveHighscores_length]
  exact h5

/-- Claim C6 (amended) witness at the spec's scenario input. -/
theorem submit_sorted_nonincreasing_witness :
    (saveHighscores 35 [50, 40, 30, 20, 10]).1.Chain' (· ≥ ·) ∧
    (saveHighscores 35 [50, 40, 30, 20, 10]).1.length = 5 :=
  submit_sorted_nonincreasing [50, 40, 30, 20, 10] 35 (by decide)
    (by norm_num [List.chain'_cons, List.chain'_singleton])

/-- Claim C9: `saveHighscores` preserves the weaker invariant — entries
non-negative and non-increasing from top to bottom — and this is indeed the
strongest order invariant maintained: there is an input (the reachable list
`[5,0,0,0,0]` with a second score of 5) whose result is not strictly
descending. -/
theorem submit_preserves_nonneg_nonincreasing (hs : List ℤ) (s : ℤ)
    (hsort : hs.Chain' (· ≥ ·)) (hpos : ∀ x ∈ hs, 0 ≤ x) :
    ((saveHighscores s hs).1.Chain' (· ≥ ·) ∧
      ∀ x ∈ (saveHighscores s hs).1, 0 ≤ x) ∧
    (∃ hs0 s0, hs0.Chain' (· ≥ ·) ∧ (∀ x ∈ hs0, (0:ℤ) ≤ x) ∧ hs0.length = 5 ∧
      ¬ (saveHighscores s0 hs0).1.Chain' (· > ·)) := by
  refine ⟨⟨saveHighscores_chain_ge s hs hsort, saveHighscores_nonneg s hs hpos⟩,
    ⟨[5, 0, 0, 0, 0], 5, ?_, by decide, by decide, ?_⟩⟩
  · norm_num [List.chain'_cons, List.chain'_singleton]
  · have he : (saveHighscores 5 [5, 0, 0, 0, 0]).1 = [5, 5, 0, 0, 0] := by decide
    rw [he]
    norm_num [List.chain'_cons]

/-- Claim C9 witness at the all-zero initial list with score 5. -/
theorem submit_preserves_nonneg_nonincreasing_witness :
    (saveHighscores 5 [0, 0, 0, 0, 0]).1.Chain' (· ≥ ·) ∧
    ∀ x ∈ (saveHighscores 5 [0, 0, 0, 0, 0]).1, 0 ≤ x :=
  (submit_preserves_nonneg_nonincreasing [0, 0, 0, 0, 0] 5
    (by norm_num [List.chain'_cons, List.chain'_singleton]) (by decide)).1

/-- The PLAYING-state physics step of `loop` (lines 170-179): on a pressed
button `velocity = JUMP_STRENGTH`; then `velocity += GRAVITY`;
`velocity = constrain(velocity, -50, 50)`; `birdY += velocity`;
`if (birdY < 0) birdY = 0`.  Returns `(birdY, velocity)` after the step. -/
def playingPhysicsStep (birdY velocity : ℤ) (pressed : Bool) : ℤ × ℤ :=
  let v1 := if pressed then JUMP_STRENGTH else velocity
  let v2 := v1 + GRAVITY
  let v3 := constrain v2 (-50) 50
  let y1 := birdY + v3
  let y2 := if y1 < 0 then 0 else y1
  (y2, v3)

/-- Claim C3: one physics step sets the velocity to the jump-strength
constant when jump is triggered (overriding, not adding), adds gravity,
clamps the result to `[-50, 50]`, adds the resulting velocity to the
position and clamps the position below at 0 — but not at the bottom — so
the position after the update is never negative. -/
theorem playing_physics_spec (y v : ℤ) (pressed : Bool) :
    (playingPhysicsStep y v pressed).2 =
      max (-50) (min 50 ((if pressed then JUMP_STRENGTH else v) + GRAVITY)) ∧
    (playingPhysicsStep y v pressed).1 =
      max 0 (y + (playingPhysicsStep y v pressed).2) ∧
    0 ≤ (playingPhysicsStep y v pressed).1 ∧
    (0 ≤ y + (playingPhysicsStep y v pressed).2 →
      (playingPhysicsStep y v pressed).1 = y + (playingPhysicsStep y v pressed).2) := by
  cases pressed <;>
    simp only [playingPhysicsStep, constrain, JUMP_STRENGTH, GRAVITY,
      Bool.false_eq_true, if_false, if_true] <;>
    split_ifs <;>
    constructor <;>
    try constructor <;> try constructor
  all_goals omega

/-- Claim C3 witness: a concrete step (no jump, `y = 100`, `v = 0`) where
the position is not clamped at the bottom. -/
theorem playing_physics_spec_witness :
    (playingPhysicsStep 100 0 false).1 = 100 + (playingPhysicsStep 100 0 false).2 ∧
    (playingPhysicsStep 100 0 false).1 = 105 := by
  have h := (playing_physics_spec 100 0 false).2.2.2 (by decide)
  exact ⟨h, by decide⟩

/-- The per-pipe collision test of `checkCollision` (lines 271-280): the
pipe horizontally overlaps the 2-scaled-unit-forgiving actor span
(`pipes[i].x < (15+2)*SCALE_FACTOR && pipes[i].x + PIPE_WIDTH >
(15-2)*SCALE_FACTOR`) and the forgiven actor span leaves the gap
(`birdY - 2*SCALE_FACTOR < height || birdY + 2*SCALE_FACTOR >
height + PIPE_GAP`). -/
def pipeCollision (p : Pipe) (birdY : ℤ) : Bool :=
  (decide (p.x < (15 + 2) * SCALE_FACTOR) &&
      decide (p.x + PIPE_WIDTH > (15 - 2) * SCALE_FACTOR)) &&
    (decide (birdY - 2 * SCALE_FACTOR < p.height) ||
      decide (birdY + 2 * SCALE_FACTOR > p.height + PIPE_GAP))

/-- The global state read and written by `checkCollision`. -/
structure GameOverState where
  gameOver : Bool
  gameOverTime : ℕ
  highscores : List ℤ
  newHighscoreIndex : ℤ
deriving DecidableEq, Repr

/-- One collision hit (lines 276-278 and 285-287): set `gameOver`, record
the timestamp and call `saveHighscores(score)`. -/
def collisionHit (score : ℤ) (now : ℕ) (st : GameOverState) : GameOverState :=
  { gameOver := true
    gameOverTime := now
    highscores := (saveHighscores score st.highscores).1
    newHighscoreIndex := (saveHighscores score st.highscores).2 }

/-- `void checkCollision()` (lines 267-289): for every pipe that passes the
per-pipe collision test, and additionally when `birdY >=
SCREEN_HEIGHT * SCALE_FACTOR`, the game-over handling (including a
`saveHighscores` call) runs. -/
def checkCollision (pipes : List Pipe) (birdY score : ℤ) (now : ℕ)
    (st : GameOverState) : GameOverState :=
  let st1 := pipes.foldl
    (fun st p => if pipeCollision p birdY then collisionHit score now st else st) st
  if birdY ≥ SCREEN_HEIGHT * SCALE_FACTOR then collisionHit score now st1 else st1

/-- Claim C2: a pipe registers a collision exactly when it horizontally
overlaps the actor span widened by the 2-scaled-unit forgiveness margin
and the actor's forgiven vertical span is not entirely inside
`[height, height + PIPE_GAP]`; at the boundary positions
`height + margin` and `height + PIPE_GAP - margin` no collision is
registered, one scaled unit further into the pipe a collision is
registered; and a position at or below the scaled screen height makes
`checkCollision` set `gameOver` regardless of the pipes. -/
theorem pipe_collision_spec (p : Pipe) (y : ℤ) :
    (pipeCollision p y = true ↔
      ((p.x < (15 + 2) * SCALE_FACTOR ∧
          (15 - 2) * SCALE_FACTOR < p.x + PIPE_WIDTH) ∧
        ¬ (p.height ≤ y - 2 * SCALE_FACTOR ∧
            y + 2 * SCALE_FACTOR ≤ p.height + PIPE_GAP))) ∧
    (p.x < (15 + 2) * SCALE_FACTOR ∧ (15 - 2) * SCALE_FACTOR < p.x + PIPE_WIDTH →
      pipeCollision p (p.height + 2 * SCALE_FACTOR) = false ∧
      pipeCollision p (p.height + PIPE_GAP - 2 * SCALE_FACTOR) = false ∧
      pipeCollision p (p.height + 2 * SCALE_FACTOR - 1) = true ∧
      pipeCollision p (p.height + PIPE_GAP - 2 * SCALE_FACTOR + 1) = true) ∧
    (∀ (pipes : List Pipe) (score : ℤ) (now : ℕ) (st : GameOverState),
      SCREEN_HEIGHT * SCALE_FACTOR ≤ y →
        (checkCollision pipes y score now st).gameOver = true) := by
  refine ⟨?_, ?_, ?_⟩
  · simp only [pipeCollision, Bool.and_eq_true, Bool.or_eq_true, decide_eq_true_iff,
      SCALE_FACTOR, PIPE_WIDTH, PIPE_GAP]
    omega
  · intro hov
    simp only [pipeCollision, SCALE_FACTOR, PIPE_WIDTH, PIPE_GAP] at *
    refine ⟨?_, ?_, ?_, ?_⟩ <;>
      simp only [Bool.and_eq_true, Bool.or_eq_true, decide_eq_true_iff,
        Bool.and_eq_false_iff, Bool.or_eq_false_iff, decide_eq_false_iff_not] <;>
      omega
  · intro pipes score now st hy
    simp only [checkCollision, ge_iff_le, if_pos hy, collisionHit]

/-- Claim C2 witness: a pipe at `x = 150` overlaps the actor; with gap
start 100, position 120 (gap start plus margin) does not collide and 119
does; and at `birdY = 640` the bottom-of-screen rule fires. -/
theorem pipe_collision_spec_witness :
    pipeCollision ⟨150, 100⟩ (100 + 2 * SCALE_FACTOR) = false ∧
    pipeCollision ⟨150, 100⟩ (100 + 2 * SCALE_FACTOR - 1) = true ∧
    (checkCollision [] 640 0 0 ⟨false, 0, [0, 0, 0, 0, 0], -1⟩).gameOver = true := by
  have h := pipe_collision_spec ⟨150, 100⟩ 640
  exact ⟨(h.2.1 (by norm_num [SCALE_FACTOR, PIPE_WIDTH])).1,
    (h.2.1 (by norm_num [SCALE_FACTOR, PIPE_WIDTH])).2.2.1,
    h.2.2 [] 0 0 ⟨false, 0, [0, 0, 0, 0, 0], -1⟩ (by norm_num [SCREEN_HEIGHT, SCALE_FACTOR])⟩

/-- Claim C7: in a tick in which both a pipe collision and the
bottom-of-screen collision are detected, `checkCollision` calls
`saveHighscores` once per detection with the same score; `saveHighscores`
is not idempotent, so the run's score enters the list twice — the
resulting list `[3,3,0,0,0]` (index 1) differs from the single-submission
result `[3,0,0,0,0]` (index 0).  The run is marked over and the timestamp
recorded, but the exactly-once/idempotency requirement fails. -/
theorem checkCollision_double_submission :
    (checkCollision [⟨150, 100⟩, ⟨800, 100⟩, ⟨1450, 100⟩] 640 3 1000
        ⟨false, 0, [0, 0, 0, 0, 0], -1⟩) =
      ⟨true, 1000, [3, 3, 0, 0, 0], 1⟩ ∧
    saveHighscores 3 [0, 0, 0, 0, 0] = ([3, 0, 0, 0, 0], 0) ∧
    ([3, 3, 0, 0, 0] : List ℤ) ≠ [3, 0, 0, 0, 0] := by
  refine ⟨?_, by decide, by decide⟩
  decide

/-- `int findFurthestPipe()` (lines 256-264): `maxX` starts at `0` and is
raised to every larger pipe position in turn. -/
def findFurthestPipe (pipes : List Pipe) : ℤ :=
  pipes.foldl (fun maxX p => if p.x > maxX then p.x else maxX) 0

/-- Specification-side formulation: the maximum of `0` and all pipe
positions. -/
def maxPipeX0 (pipes : List Pipe) : ℤ :=
  (pipes.map Pipe.x).foldl max 0

/-- The code's running-maximum loop computes `maxPipeX0`. -/
lemma findFurthestPipe_eq_maxPipeX0 (ps : List Pipe) :
    findFurthestPipe ps = maxPipeX0 ps := by
  unfold findFurthestPipe maxPipeX0
  rw [List.foldl_map]
  congr 1
  funext m p
  by_cases h : p.x > m
  · rw [if_pos h, max_eq_right (le_of_lt h)]
  · rw [if_neg h, max_eq_left (not_lt.mp h)]

/-- Fold properties of the running maximum, with general accumulator. -/
lemma findFurthestPipe_fold_aux (ps : List Pipe) : ∀ a : ℤ,
    a ≤ ps.foldl (fun maxX p => if p.x > maxX then p.x else maxX) a ∧
    (∀ p ∈ ps, p.x ≤ ps.foldl (fun maxX p => if p.x > maxX then p.x else maxX) a) ∧
    (ps.foldl (fun maxX p => if p.x > maxX then p.x else maxX) a = a ∨
      ∃ p ∈ ps, ps.foldl (fun maxX p => if p.x > maxX then p.x else maxX) a = p.x) := by
  induction ps with
  | nil => intro a; simp
  | cons q t ih =>
    intro a
    simp only [List.foldl_cons]
    by_cases hq : q.x > a
    · simp only [if_pos hq]
      obtain ⟨h1, h2, h3⟩ := ih q.x
      refine ⟨le_trans (le_of_lt hq) h1, ?_, ?_⟩
      · intro p hp
        rcases List.mem_cons.mp hp with rfl | hp
        · exact h1
        · exact h2 p hp
      · rcases h3 with h3 | ⟨p, hp, h3⟩
        · exact Or.inr ⟨q, List.mem_cons_self q t, h3⟩
        · exact Or.inr ⟨p, List.mem_cons_of_mem q hp, h3⟩
    · simp only [if_neg hq]
      obtain ⟨h1, h2, h3⟩ := ih a
      refine ⟨h1, ?_, ?_⟩
      · intro p hp
        rcases List.mem_cons.mp hp with rfl | hp
        · exact le_trans (not_lt.mp hq) h1
        · exact h2 p hp
      · rcases h3 with h3 | ⟨p, hp, h3⟩
        · exact Or.inl h3
        · exact Or.inr ⟨p, List.mem_cons_of_mem q hp, h3⟩

/-- `findFurthestPipe` is a non-negative upper bound of all pipe positions,
attained at a pipe or at the initial value `0`. -/
lemma findFurthestPipe_spec (ps : List Pipe) :
    0 ≤ findFurthestPipe ps ∧
    (∀ p ∈ ps, p.x ≤ findFurthestPipe ps) ∧
    (findFurthestPipe ps = 0 ∨ ∃ p ∈ ps, findFurthestPipe ps = p.x) := by
  simpa [findFurthestPipe] using findFurthestPipe_fold_aux ps 0

/-- The new x-position computed at a recycle event (line 248):
`findFurthestPipe() + PIPE_SPACING + random(-20, 20) * SCALE_FACTOR`,
where `rnd` is the random oracle and `n` its call counter. -/
def recycledPipeX (rnd : ℤ → ℤ → ℕ → ℤ) (pipes : List Pipe) (n : ℕ) : ℤ :=
  findFurthestPipe pipes + PIPE_SPACING + rnd (-20) 20 n * SCALE_FACTOR

/-- `void movePipes()` (lines 238-253): each slot in index order is moved
left by `currentSpeed = PIPE_SPEED + score` (read once at entry); a slot
whose moved position is below `-PIPE_WIDTH` is immediately re-created at
`recycledPipeX` of the array as it stands at that moment, with a fresh
random height `random(10*SCALE_FACTOR,
SCREEN_HEIGHT*SCALE_FACTOR - PIPE_GAP - 10*SCALE_FACTOR)`, and the score
is incremented.  Returns the array, the score and the random counter. -/
def movePipes (rnd : ℤ → ℤ → ℕ → ℤ) (pipes : List Pipe) (score : ℤ) (n : ℕ) :
    List Pipe × ℤ × ℕ :=
  (List.range MAX_PIPES).foldl
    (fun st i =>
      let moved : Pipe := ⟨(st.1.getD i ⟨0, 0⟩).x - (PIPE_SPEED + score),
        (st.1.getD i ⟨0, 0⟩).height⟩
      let ps1 := st.1.set i moved
      if moved.x < -PIPE_WIDTH then
        (ps1.set i ⟨recycledPipeX rnd ps1 st.2.2,
            rnd (10 * SCALE_FACTOR)
              (SCREEN_HEIGHT * SCALE_FACTOR - PIPE_GAP - 10 * SCALE_FACTOR)
              (st.2.2 + 1)⟩,
          st.2.1 + 1, st.2.2 + 2)
      else (ps1, st.2.1, st.2.2))
    (pipes, score, n)

/-- A concrete in-range instance of the random oracle, returning the lower
bound or `0`, whichever is larger. -/
def rnd0 : ℤ → ℤ → ℕ → ℤ := fun lo _ _ => max lo 0

/-- Claim C4 counterexample: with every pipe at a negative position at the
moment of recycling, the recycled position is computed from the floor `0`,
not from the actual maximum pipe position.  Here the maximum position
among the pipes is `-210`, the drawn jitter is `0`, so the claimed value
would be `-210 + 650 + 0 = 440`, but the code produces `650`; the same
happens for slot 0 inside a full `movePipes` tick starting from
`[-200, -300, -400]`. -/
theorem recycle_plain_max_cex :
    recycledPipeX rnd0 [⟨-210, 100⟩, ⟨-300, 100⟩, ⟨-400, 100⟩] 0 = 650 ∧
    (-210 : ℤ) + PIPE_SPACING + rnd0 (-20) 20 0 * SCALE_FACTOR = 440 ∧
    (650 : ℤ) ≠ 440 ∧
    (movePipes rnd0 [⟨-200, 100⟩, ⟨-300, 100⟩, ⟨-400, 100⟩] 0 0).1.getD 0 ⟨0, 0⟩ =
      ⟨650, 100⟩ := by
  refine ⟨by decide, by decide, by decide, by decide⟩

/-- Claim C4 (amended): a recycled obstacle's new position equals the
maximum of `0` and all current obstacle positions, plus the spacing
constant, plus the jitter `random(-20,20)` scaled; it is strictly greater
than every current obstacle's position, so recycling never introduces an
overlap. -/
theorem recycle_position_spec (rnd : ℤ → ℤ → ℕ → ℤ) (ps : List Pipe) (n : ℕ)
    (hlo : -20 ≤ rnd (-20) 20 n) (hhi : rnd (-20) 20 n < 20) :
    recycledPipeX rnd ps n =
      maxPipeX0 ps + PIPE_SPACING + rnd (-20) 20 n * SCALE_FACTOR ∧
    ∀ p ∈ ps, p.x < recycledPipeX rnd ps n := by
  constructor
  · unfold recycledPipeX
    rw [findFurthestPipe_eq_maxPipeX0]
  · intro p hp
    have h1 := (findFurthestPipe_spec ps).2.1 p hp
    unfold recycledPipeX
    simp only [PIPE_SPACING, SCALE_FACTOR] at *
    omega

/-- Claim C4 (amended) witness: a recycle event where every pipe sits at a
negative position. -/
theorem recycle_position_spec_witness :
    recycledPipeX rnd0 [⟨-210, 100⟩, ⟨-300, 100⟩, ⟨-400, 100⟩] 5 =
      maxPipeX0 [⟨-210, 100⟩, ⟨-300, 100⟩, ⟨-400, 100⟩] + PIPE_SPACING +
        rnd0 (-20) 20 5 * SCALE_FACTOR ∧
    ∀ p ∈ ([⟨-210, 100⟩, ⟨-300, 100⟩, ⟨-400, 100⟩] : List Pipe),
      p.x < recycledPipeX rnd0 [⟨-210, 100⟩, ⟨-300, 100⟩, ⟨-400, 100⟩] 5 :=
  recycle_position_spec rnd0 [⟨-210, 100⟩, ⟨-300, 100⟩, ⟨-400, 100⟩] 5
    (by decide) (by decide)

/-- Claim C10: the furthest-pipe search returns the maximum of `0` and the
pipe positions — a non-negative upper bound of all positions that is `0`
whenever every position is negative — and consequently every recycled
position is at least `PIPE_SPACING - 20*SCALE_FACTOR = 450` scaled units. -/
theorem furthest_pipe_floor_spec (rnd : ℤ → ℤ → ℕ → ℤ) (ps : List Pipe) (n : ℕ)
    (hlo : -20 ≤ rnd (-20) 20 n) (hhi : rnd (-20) 20 n < 20) :
    0 ≤ findFurthestPipe ps ∧
    (∀ p ∈ ps, p.x ≤ findFurthestPipe ps) ∧
    (findFurthestPipe ps = 0 ∨ ∃ p ∈ ps, findFurthestPipe ps = p.x) ∧
    ((∀ p ∈ ps, p.x < 0) → findFurthestPipe ps = 0) ∧
    PIPE_SPACING - 20 * SCALE_FACTOR ≤ recycledPipeX rnd ps n ∧
    450 ≤ recycledPipeX rnd ps n := by
  obtain ⟨h0, hub, hat⟩ := findFurthestPipe_spec ps
  have hzero : (∀ p ∈ ps, p.x < 0) → findFurthestPipe ps = 0 := by
    intro hneg
    rcases hat with h | ⟨p, hp, h⟩
    · exact h
    · exfalso
      have := hneg p hp
      omega
  have hlow : PIPE_SPACING - 20 * SCALE_FACTOR ≤ recycledPipeX rnd ps n := by
    unfold recycledPipeX
    simp only [PIPE_SPACING, SCALE_FACTOR] at *
    omega
  refine ⟨h0, hub, hat, hzero, hlow, ?_⟩
  simp only [PIPE_SPACING, SCALE_FACTOR] at hlow
  omega

/-- Claim C10 witness: with all pipes at negative positions the search
returns `0` and the recycled position is still at least `450`. -/
theorem furthest_pipe_floor_spec_witness :
    findFurthestPipe [⟨-5, 100⟩, ⟨-300, 100⟩, ⟨-400, 100⟩] = 0 ∧
    450 ≤ recycledPipeX rnd0 [⟨-5, 100⟩, ⟨-300, 100⟩, ⟨-400, 100⟩] 0 := by
  have h := furthest_pipe_floor_spec rnd0 [⟨-5, 100⟩, ⟨-300, 100⟩, ⟨-400, 100⟩] 0
    (by decide) (by decide)
  exact ⟨h.2.2.2.1 (by decide), h.2.2.2.2.2⟩

/-- Claim C5: one `movePipes` tick on the 3-slot array moves every
obstacle left by exactly `PIPE_SPEED + score` (the score read at tick
entry), increments the score by exactly 1 for each slot recycled in the
tick (a slot is recycled exactly when its moved position is below
`-PIPE_WIDTH`), and the score never decreases. -/
theorem movePipes_score_spec (rnd : ℤ → ℤ → ℕ → ℤ) (p0 p1 p2 : Pipe)
    (score : ℤ) (n : ℕ) :
    (movePipes rnd [p0, p1, p2] score n).2.1 =
      score + (if p0.x - (PIPE_SPEED + score) < -PIPE_WIDTH then 1 else 0) +
        (if p1.x - (PIPE_SPEED + score) < -PIPE_WIDTH then 1 else 0) +
        (if p2.x - (PIPE_SPEED + score) < -PIPE_WIDTH then 1 else 0) ∧
    score ≤ (movePipes rnd [p0, p1, p2] score n).2.1 ∧
    (¬ p0.x - (PIPE_SPEED + score) < -PIPE_WIDTH →
      (movePipes rnd [p0, p1, p2] score n).1.getD 0 ⟨0, 0⟩ =
        ⟨p0.x - (PIPE_SPEED + score), p0.height⟩) ∧
    (¬ p1.x - (PIPE_SPEED + score) < -PIPE_WIDTH →
      (movePipes rnd [p0, p1, p2] score n).1.getD 1 ⟨0, 0⟩ =
        ⟨p1.x - (PIPE_SPEED + score), p1.height⟩) ∧
    (¬ p2.x - (PIPE_SPEED + score) < -PIPE_WIDTH →
      (movePipes rnd [p0, p1, p2] score n).1.getD 2 ⟨0, 0⟩ =
        ⟨p2.x - (PIPE_SPEED + score), p2.height⟩) := by
  have hr : List.range MAX_PIPES = [0, 1, 2] := by decide
  by_cases c0 : p0.x - (PIPE_SPEED + score) < -PIPE_WIDTH <;>
    by_cases c1 : p1.x - (PIPE_SPEED + score) < -PIPE_WIDTH <;>
      by_cases c2 : p2.x - (PIPE_SPEED + score) < -PIPE_WIDTH <;>
        simp only [movePipes, hr, List.foldl_cons, List.foldl_nil,
          List.getD_cons_zero, List.getD_cons_succ, List.set_cons_zero,
          List.set_cons_succ, c0, c1, c2, if_true, if_false, ite_true,
          ite_false] <;>
        refine ⟨by first | trivial | omega, by first | trivial | omega, ?_, ?_, ?_⟩ <;>
          intro hc <;> first | exact absurd trivial hc | trivial

/-- Claim C5 witness: a tick at score 0 where only slot 2 is recycled —
the score becomes 1 and slot 0 has moved left by exactly
`PIPE_SPEED + 0 = 10`. -/
theorem movePipes_score_spec_witness :
    (movePipes rnd0 [⟨500, 100⟩, ⟨800, 100⟩, ⟨-145, 100⟩] 0 0).2.1 = 1 ∧
    (movePipes rnd0 [⟨500, 100⟩, ⟨800, 100⟩, ⟨-145, 100⟩] 0 0).1.getD 0 ⟨0, 0⟩ =
      ⟨490, 100⟩ := by
  have h := movePipes_score_spec rnd0 ⟨500, 100⟩ ⟨800, 100⟩ ⟨-145, 100⟩ 0 0
  constructor
  · rw [h.1]
    decide
  · rw [h.2.2.1 (by decide)]
    decide

/-- `enum GameState { STARTSCREEN, HIGHSCORE, PLAYING }`. -/
inductive GameState where
  | STARTSCREEN : GameState
  | HIGHSCORE : GameState
  | PLAYING : GameState
deriving DecidableEq, Repr

/-- The `HIGHSCORE` case of `loop` (lines 192-203): after rendering, if
`millis() - gameOverTime > 8000` the state is set to `STARTSCREEN`; then,
if the button is pressed, the game is reset and the state is set to
`PLAYING`.  Returns the next `gameState` for current time `now`, recorded
game-over time `gameOverTime` and button level `pressed`. -/
def loopHighscoreCase (now gameOverTime : ℕ) (pressed : Bool) : GameState :=
  let gs := if now - gameOverTime > 8000 then GameState.STARTSCREEN
    else GameState.HIGHSCORE
  if pressed then GameState.PLAYING else gs

/-- Claim C8 counterexample: in the HIGHSCORE state a button press moves
the machine to PLAYING (a new run starts immediately), not back to
STARTSCREEN as claimed. -/
theorem highscore_press_cex :
    loopHighscoreCase 10000 0 true = GameState.PLAYING ∧
    GameState.PLAYING ≠ GameState.STARTSCREEN := by
  exact ⟨rfl, by decide⟩

/-- Claim C8 (amended): from the HIGHSCORE state, an input press
immediately starts a new run (PLAYING); absent a press, once more than
8000 ms have passed since the recorded game-over time the machine goes
back to STARTSCREEN, and before that it stays in HIGHSCORE; these are the
only exits. -/
theorem loopHighscoreCase_spec (now gameOverTime : ℕ) :
    loopHighscoreCase now gameOverTime true = GameState.PLAYING ∧
    (8000 < now - gameOverTime →
      loopHighscoreCase now gameOverTime false = GameState.STARTSCREEN) ∧
    (¬ 8000 < now - gameOverTime →
      loopHighscoreCase now gameOverTime false = GameState.HIGHSCORE) := by
  refine ⟨rfl, ?_, ?_⟩
  · intro h
    simp [loopHighscoreCase, h]
  · intro h
    simp [loopHighscoreCase, h]

/-- Claim C8 (amended) witness: timeout elapsed without a press goes to
STARTSCREEN; not yet elapsed stays in HIGHSCORE. -/
theorem loopHighscoreCase_spec_witness :
    loopHighscoreCase 10000 1000 false = GameState.STARTSCREEN ∧
    loopHighscoreCase 5000 1000 false = GameState.HIGHSCORE :=
  ⟨(loopHighscoreCase_spec 10000 1000).2.1 (by decide),
   (loopHighscoreCase_spec 5000 1000).2.2 (by decide)⟩
